import Mathlib

/-!
Shallow embedding of the `Tube` buffered-I/O abstraction from
`src/lib/tubes/ProcessTube.ts` (the converged `Tube` class with
`TubeContext`) together with the wait primitive from
`src/lib/helpers/wait.ts` and the endpoint model from `src/models/IO.ts`.

Byte buffers (`Buffer`) are modelled as `List Nat`.  The asynchronous
environment (chunk arrival on the endpoint's readable side, the source's
close signal, a timer firing) is modelled by explicit event lists: each
suspension point of the original code consumes the event that settled it.
All definitions are structurally recursive and executable, so concrete
runs evaluate with `decide` / `rfl`.
-/

namespace Pwnutil

/-- Decidable equality for `Except`, so concrete runs of the fallible
operations can be checked with `decide`. -/
instance {ε α : Type} [DecidableEq ε] [DecidableEq α] : DecidableEq (Except ε α) := fun a b =>
  match a, b with
  | .error e₁, .error e₂ =>
      if h : e₁ = e₂ then isTrue (by rw [h]) else isFalse (by simp [h])
  | .ok a₁, .ok a₂ =>
      if h : a₁ = a₂ then isTrue (by rw [h]) else isFalse (by simp [h])
  | .error _, .ok _ => isFalse fun h => Except.noConfusion h
  | .ok _, .error _ => isFalse fun h => Except.noConfusion h

/-- Endpoint model of `IOAble` from `src/models/IO.ts`: an optional readable
source (`output`), an optional writable sink (`input`), and an optional
destroy capability.  `destroy = some b` means the capability is present and
its promise fulfills (`b = true`) or rejects (`b = false`). -/
structure IOAble where
  output : Bool
  input : Bool
  destroy : Option Bool
deriving DecidableEq, Repr

/-- The `IODestroyed` sentinel: an endpoint with none of the capabilities. -/
def IODestroyed : IOAble := ⟨false, false, none⟩

/-- `isReadable`: the readable capability is present (`io.output != undefined`). -/
def isReadable (endp : IOAble) : Bool := endp.output

/-- `isWritable`: the writable capability is present (`io.input != undefined`). -/
def isWritable (endp : IOAble) : Bool := endp.input

/-- `isDestroyable`: the destroy capability is present (`io.destroy != undefined`). -/
def isDestroyable (endp : IOAble) : Bool := endp.destroy.isSome

/-- The `Tube` state: the held endpoint `io` and the receive buffer
`outBuffer`. -/
structure Tube where
  io : IOAble
  outBuffer : List Nat
deriving DecidableEq, Repr

/-- The constructor's `"data"` listener: append the chunk to `outBuffer`
(and emit a `"data"` notification, which the event lists model). -/
def dataHandler (t : Tube) (c : List Nat) : Tube :=
  { t with outBuffer := t.outBuffer ++ c }

/-- The constructor's `"close"` listener: emit one final empty `"data"`
notification and retire the readable side (`this.io.output = undefined`). -/
def closeHandler (t : Tube) : Tube :=
  { t with io := { t.io with output := false } }

/-- `connected("in")`: the readable capability is present or the buffer is
non-empty. -/
def connectedIn (t : Tube) : Bool :=
  isReadable t.io || t.outBuffer.length > 0

/-- `connected("out")`: the writable capability is present. -/
def connectedOut (t : Tube) : Bool :=
  isWritable t.io

/-- `Tube.connected(direction)`: dispatch on the direction token; an
unrecognized token throws `"Invalid direction"`. -/
def connected (t : Tube) (direction : String) : Except String Bool :=
  if ["in", "read", "recv"].contains direction then .ok (connectedIn t)
  else if ["out", "send", "write"].contains direction then .ok (connectedOut t)
  else if ["any", "either"].contains direction then .ok (connectedIn t || connectedOut t)
  else if ["both"].contains direction then .ok (connectedIn t && connectedOut t)
  else .error "Invalid direction"

/-- What settles the `waitForEvent(this, "data", ...)` call inside a
blocking receive: a chunk arrives, the source's close signal fires (which
emits an empty `"data"` notification), or the timer fires first. -/
inductive RecvEvent where
  | chunk (c : List Nat)
  | closeEv
  | timeoutEv
deriving DecidableEq, Repr

/-- Effect on the tube of the notification that woke a pending receive. -/
def recvWake (t : Tube) : RecvEvent → Tube
  | .chunk c => dataHandler t c
  | .closeEv => closeHandler t
  | .timeoutEv => t

/-- The tube state at the point `recv` resumes: if the buffer was empty it
waited and the event `ev` settled the wait, otherwise it did not wait. -/
def recvAfterWake (t : Tube) (ev : RecvEvent) : Tube :=
  if t.outBuffer.isEmpty then recvWake t ev else t

/-- `Tube.recv(bytes, timeout)`: fail if input is not connected; otherwise
wait for a `"data"` notification only when the buffer is empty, then take
up to `bytes` from the buffer head and leave the remainder. -/
def recv (t : Tube) (bytes : Nat) (ev : RecvEvent) : Except String (List Nat) × Tube :=
  if ¬ connectedIn t then (.error "Cannot read from io object.", t)
  else
    let t1 := recvAfterWake t ev
    (.ok (t1.outBuffer.take bytes), { t1 with outBuffer := t1.outBuffer.drop bytes })

/-- `Tube.unrecv(data)`: prepend `data` to the head of the buffer. -/
def unrecv (t : Tube) (data : List Nat) : Tube :=
  { t with outBuffer := data ++ t.outBuffer }

/-- Environment events observed by `recvall` while it waits on the
source's `"close"` signal. -/
inductive RAEvent where
  | chunk (c : List Nat)
  | closeEv
deriving DecidableEq, Repr

/-- Settlement of a blocking receive promise: fulfilled, rejected, or never
settled (the suspension's event source is exhausted and nothing else can
wake it). -/
inductive RAOutcome where
  | ok (data : List Nat)
  | err (msg : String)
  | hang
deriving DecidableEq, Repr

/-- The waiting phase of `recvall`: chunks are appended by the data
listener; the close signal retires the readable side and resolves the
wait, whereupon the whole buffer is returned and cleared. -/
def recvallWait : Tube → List RAEvent → RAOutcome × Tube
  | t, [] => (.hang, t)
  | t, .chunk c :: rest => recvallWait (dataHandler t c) rest
  | t, .closeEv :: _ =>
      let t1 := closeHandler t
      (.ok t1.outBuffer, { t1 with outBuffer := [] })

/-- `Tube.recvall()`: fail if input is not connected, otherwise wait with
no timeout for the source's close signal. -/
def recvall (t : Tube) (events : List RAEvent) : RAOutcome × Tube :=
  if ¬ connectedIn t then (.err "Cannot read from io object.", t)
  else recvallWait t events

/-- `Tube.close()`: if the endpoint is destroyable, await its destroy
promise; a rejection propagates to the caller before `this.io` is
reassigned, so the endpoint is replaced with `IODestroyed` only when
destroy is absent or succeeds. -/
def close (t : Tube) : Except String Unit × Tube :=
  match t.io.destroy with
  | some true => (.ok (), { t with io := IODestroyed })
  | some false => (.error "destroy failed", t)
  | none => (.ok (), { t with io := IODestroyed })

/-! ### The wait primitive (`waitForEvent` in `src/lib/helpers/wait.ts`) -/

/-- The limit argument of `waitForEvent`: either a duration in
milliseconds (a timer is armed only when it is non-negative) or an
externally supplied cancellation promise. -/
inductive WFELimit where
  | num (ms : Int)
  | prom
deriving DecidableEq, Repr

/-- Which of the racing sides settles first: the awaited event fires (with
its argument list), the armed timer fires, or the cancellation promise
resolves (with a value). -/
inductive RaceWinner where
  | eventFirst (args : List Nat)
  | timerFirst
  | cancelFirst (v : List Nat)
deriving DecidableEq, Repr

/-- Settlement of the `waitForEvent` promise. `resolved none` is the
timeout sentinel `null`; `pending` means nothing can settle it. -/
inductive WaitOutcome where
  | resolved (args : Option (List Nat))
  | rejected (msg : String)
  | pending
deriving DecidableEq, Repr

/-- Observable result of one `waitForEvent` race: how the promise settled,
whether an armed timer is still pending afterwards, and whether the
`once`-listener is still attached afterwards. -/
structure WFEResult where
  outcome : WaitOutcome
  timerPending : Bool
  listenerAttached : Bool
deriving DecidableEq, Repr

/-- The shared `handler` closure of `waitForEvent`: it clears any armed
timer and then applies the `reject` policy to whatever invoked it. -/
def wfeHandler (reject : Bool) (args : List Nat) : WaitOutcome :=
  if reject then .rejected "Hit timeout before event." else .resolved (some args)

/-- `waitForEvent(emitter, event, timeout, reject)` from
`src/lib/helpers/wait.ts`, as a function of which side of the race settles
first.  The event fires: the `once`-listener auto-detaches, runs `handler`
(clearing the timer).  The timer fires first (armed only for a
non-negative numeric limit): resolve `null` or reject per policy, leaving
the `once`-listener attached.  The cancellation promise resolves first:
detach the listener with `off`, then run `handler` on its value.
Combinations whose winning side does not exist (a timer that was never
armed) leave the promise pending. -/
def waitForEvent (limit : WFELimit) (reject : Bool) (w : RaceWinner) : WFEResult :=
  match limit, w with
  | _, .eventFirst args =>
      { outcome := wfeHandler reject args, timerPending := false, listenerAttached := false }
  | .num ms, .timerFirst =>
      if ms ≥ 0 then
        { outcome := if reject then .rejected "Hit timeout before event." else .resolved none,
          timerPending := false, listenerAttached := true }
      else
        { outcome := .pending, timerPending := false, listenerAttached := true }
  | .prom, .timerFirst =>
      { outcome := .pending, timerPending := false, listenerAttached := true }
  | .prom, .cancelFirst v =>
      { outcome := wfeHandler reject v, timerPending := false, listenerAttached := false }
  | .num ms, .cancelFirst _ =>
      { outcome := .pending, timerPending := ms ≥ 0, listenerAttached := true }

/-! ### `Tube.recvuntil` -/

/-- The `handleIncomplete` policy. `hReturn`, `hBuffer`, `hThrow` stand for
the string values `"return"`, `"buffer"`, `"throw"`. -/
inductive HandleIncomplete where
  | hReturn
  | hBuffer
  | hThrow
deriving DecidableEq, Repr

/-- Settlement of the `recvuntil` / `recvline` / `recvlinePred` promise.
`hang` means the promise never settles; `unhandled` means an exception was
thrown inside the `async` promise executor, which leaves the returned
promise unsettled and surfaces as an unhandled rejection. -/
inductive RUOutcome where
  | ok (data : List Nat)
  | err (msg : String)
  | hang
  | unhandled (msg : String)
deriving DecidableEq, Repr

/-- Events settling the suspensions inside the `recvuntil` accumulation
loop: a chunk arrival wakes the pending inner `recv`, the source's close
signal wakes it with an empty notification, or the single outer deadline
(`waitForTime(timeout * 1000, ...)`) fires. -/
inductive RUEvent where
  | chunk (c : List Nat)
  | closeEv
  | timeoutEv
deriving DecidableEq, Repr

/-- `Buffer.indexOf(needle)`: index of the first full occurrence of
`needle` in `hay`, or `-1`. -/
def bufIndexOf (hay needle : List Nat) : Int :=
  match (List.range (hay.length + 1)).find? (fun i => needle.isPrefixOf (hay.drop i)) with
  | some i => (i : Int)
  | none => -1

/-- The scan step of the loop body:
`delims.map(v => [v, ret.indexOf(v)]).filter(v => v[1] != -1)`. -/
def ruCandidates (delims : List (List Nat)) (ret : List Nat) : List (List Nat × Int) :=
  (delims.map (fun v => (v, bufIndexOf ret v))).filter (fun p => p.2 != -1)

/-- Stable insertion of one candidate into an index-sorted list; together
with `sortByIdx` this is the denotation of the (stable) JavaScript
`indices.sort((a, b) => a[1] - b[1])`. -/
def insertByIdx (x : List Nat × Int) : List (List Nat × Int) → List (List Nat × Int)
  | [] => [x]
  | y :: ys => if x.2 ≤ y.2 then x :: y :: ys else y :: insertByIdx x ys

/-- Stable sort of the candidate list by match offset. -/
def sortByIdx : List (List Nat × Int) → List (List Nat × Int)
  | [] => []
  | x :: xs => insertByIdx x (sortByIdx xs)

/-- `indices[0]` after filtering and sorting: the selected match, when any
delimiter occurs in the accumulated data. -/
def ruMatch (delims : List (List Nat)) (ret : List Nat) : Option (List Nat × Int) :=
  (sortByIdx (ruCandidates delims ret)).head?

/-- The `waitForTime(...).then(...)` handler, reached when the outer
deadline fires (or the loop exits without a match and calls `resolve()`)
while `graceful` is still false: `"buffer"` pushes the accumulated data
back via `unrecv` but never settles the promise; `"throw"` pushes it back
and rejects; `"return"` resolves with the accumulated data. -/
def ruIncomplete (hI : HandleIncomplete) (t : Tube) (ret : List Nat) : RUOutcome × Tube :=
  match hI with
  | .hBuffer => (.hang, unrecv t ret)
  | .hThrow => (.err "Timeout before reaching deliminator.", unrecv t ret)
  | .hReturn => (.ok ret, t)

/-- Iterations of the accumulation loop in which the buffer is non-empty:
the inner `recv()` returns immediately with up to 4096 bytes, the chunk is
appended to `ret`, and the scan runs.  On a match the accumulated data is
sliced at `offset + delimiter.length` and the tail is written into
`outBuffer`.  `connected("in")` is true throughout (the buffer is
non-empty), so the loop-top check is elided here.  The fuel is always
called with `t.outBuffer.length`, which bounds the iteration count since
every step consumes at least one byte. -/
def ruDrain (delims : List (List Nat)) (t : Tube) (ret : List Nat) :
    Nat → (RUOutcome × Tube) ⊕ (Tube × List Nat)
  | 0 => .inr (t, ret)
  | fuel + 1 =>
    if t.outBuffer.isEmpty then .inr (t, ret)
    else
      let dat := t.outBuffer.take 4096
      let t2 := { t with outBuffer := t.outBuffer.drop 4096 }
      let ret2 := ret ++ dat
      match ruMatch delims ret2 with
      | some (d, i) =>
          .inl (.ok (ret2.take (i.toNat + d.length)),
                { t2 with outBuffer := ret2.drop (i.toNat + d.length) })
      | none => ruDrain delims t2 ret2 fuel

/-- Iterations of the accumulation loop at which the buffer is empty: the
loop re-checks `connected("in")` (exiting into the incomplete path when
the source closed and the buffer drained), then the inner `recv()`
suspends until a chunk arrives, the close signal fires, or the outer
deadline fires.  After a wake the scan runs on the accumulated data and
any refilled buffer is drained. -/
def ruLoop (delims : List (List Nat)) (hI : HandleIncomplete) :
    Tube → List Nat → List RUEvent → RUOutcome × Tube
  | t, ret, events =>
    if ¬ connectedIn t then ruIncomplete hI t ret
    else
      match events with
      | [] => (.hang, t)
      | .timeoutEv :: _ => ruIncomplete hI t ret
      | .closeEv :: rest =>
          let t1 := closeHandler t
          match ruMatch delims ret with
          | some (d, i) =>
              (.ok (ret.take (i.toNat + d.length)),
               { t1 with outBuffer := ret.drop (i.toNat + d.length) })
          | none => ruLoop delims hI t1 ret rest
      | .chunk c :: rest =>
          let t1 := dataHandler t c
          match ruDrain delims t1 ret t1.outBuffer.length with
          | .inl out => out
          | .inr (t2, ret2) => ruLoop delims hI t2 ret2 rest

/-- `Tube.recvuntil(delims, timeout, handleIncomplete)`.  The initial
`connected("in")` check throws inside the `async` promise executor, which
leaves the returned promise unsettled (an unhandled rejection).  Otherwise
the loop first drains whatever is already buffered and then waits
event-by-event. -/
def recvuntil (t : Tube) (delims : List (List Nat)) (hI : HandleIncomplete)
    (events : List RUEvent) : RUOutcome × Tube :=
  if ¬ connectedIn t then (.unhandled "Cannot read from io object.", t)
  else
    match ruDrain delims t [] t.outBuffer.length with
    | .inl out => out
    | .inr (t1, ret1) => ruLoop delims hI t1 ret1 events

/-! ### `Tube.recvline` -/

/-- `data.slice(-n)` on a buffer: the last `n` bytes (the whole buffer when
`n` exceeds its length; `-0` is `0`, so `n = 0` yields the whole buffer). -/
def jsSliceFromEnd (data : List Nat) (n : Nat) : List Nat :=
  if n = 0 then data else data.drop (data.length - n)

/-- `Tube.recvline(keepends, timeout, handleIncomplete, lineEnding)`:
delegate to `recvuntil([lineEnding], timeout, "throw")`; on success, when
`keepends` is unset and the data ends with the line ending, strip via
`data.slice(0, data.length - 1)` (one byte).  On a rejection, dispatch on
`handleIncomplete`: `"return"` returns and clears the buffer (into which
`recvuntil` pushed the accumulated data back), `"throw"` throws the
distinct `"Could not find a newline."` error, `"buffer"` returns an empty
result.  If the inner promise never settles the outer one cannot either. -/
def recvline (t : Tube) (keepends : Bool) (hI : HandleIncomplete) (lineEnding : List Nat)
    (events : List RUEvent) : RUOutcome × Tube :=
  match recvuntil t [lineEnding] .hThrow events with
  | (.ok data, t1) =>
      if !keepends && jsSliceFromEnd data lineEnding.length == lineEnding then
        (.ok (data.take (data.length - 1)), t1)
      else (.ok data, t1)
  | (.err _, t1) =>
      match hI with
      | .hReturn => (.ok t1.outBuffer, { t1 with outBuffer := [] })
      | .hThrow => (.err "Could not find a newline.", t1)
      | .hBuffer => (.ok [], t1)
  | (_, t1) => (.hang, t1)

/-! ### `Tube.recvlinePred` -/

/-- Steps of the `recvlinePred` loop: one inner `recvline` call (with the
events that settle its suspensions), or the outer deadline firing while
the loop is suspended. -/
inductive RLPStep where
  | line (evs : List RUEvent)
  | timeoutStep
deriving Repr

/-- The `waitForTime(...).then(...)` handler of `recvlinePred`, reached
with `graceful` still false: `"throw"` rejects and pushes the scrapped
lines back; `"buffer"` resolves empty and pushes them back; `"return"`
resolves with `Buffer.concat([scrapped, data])` where `data` is the last
line read — undefined when no `recvline` call completed yet, in which case
the concat throws inside the timer callback and the promise never
settles. -/
def rlpDispatch (hI : HandleIncomplete) (t : Tube) (scrapped : List Nat)
    (lastData : Option (List Nat)) : RUOutcome × Tube :=
  match hI with
  | .hThrow => (.err "Timeout before reaching deliminator.", unrecv t scrapped)
  | .hBuffer => (.ok [], unrecv t scrapped)
  | .hReturn =>
      match lastData with
      | some d => (.ok (scrapped ++ d), t)
      | none => (.hang, t)

/-- The `recvlinePred` loop: while `connected("in")`, read a line with
`handleIncomplete = "buffer"`; an empty line ends the loop (dispatching the
incomplete path), a line matching the predicate resolves, and any other
line is appended to `scrapped`. -/
def recvlinePredLoop (pred : List Nat → Bool) (keepends : Bool) (hI : HandleIncomplete)
    (lineEnding : List Nat) :
    Tube → List Nat → Option (List Nat) → List RLPStep → RUOutcome × Tube
  | t, scrapped, lastData, steps =>
    if ¬ connectedIn t then rlpDispatch hI t scrapped lastData
    else
      match steps with
      | [] => (.hang, t)
      | .timeoutStep :: _ => rlpDispatch hI t scrapped lastData
      | .line evs :: rest =>
          match recvline t keepends .hBuffer lineEnding evs with
          | (.ok data, t1) =>
              if data.isEmpty then rlpDispatch hI t1 scrapped (some data)
              else if pred data then (.ok data, t1)
              else recvlinePredLoop pred keepends hI lineEnding t1 (scrapped ++ data)
                     (some data) rest
          | (_, t1) => (.hang, t1)

/-- `Tube.recvlinePred(pred, ...)`.  The predicate receives the raw bytes
(the decoded string view is derived from them, so it is not modelled
separately). -/
def recvlinePred (t : Tube) (pred : List Nat → Bool) (keepends : Bool)
    (hI : HandleIncomplete) (lineEnding : List Nat) (steps : List RLPStep) :
    RUOutcome × Tube :=
  recvlinePredLoop pred keepends hI lineEnding t [] none steps

/-! ### `Tube.canRecv` and `Tube.clean` -/

/-- `Tube.canRecv(timeout)`: true immediately when the buffer is
non-empty; otherwise wait once for a `"data"` notification (bounded by
`max(timeout * 1000, 0)`) and re-check. -/
def canRecv (t : Tube) (ev : RecvEvent) : Bool × Tube :=
  if t.outBuffer.length > 0 then (true, t)
  else
    let t1 := recvWake t ev
    (t1.outBuffer.length > 0, t1)

/-- Iterations of the `clean` loop in which the buffer is non-empty: each
`recv(4096, timeout)` returns a non-empty chunk immediately, so the loop
keeps concatenating.  Called with fuel `t.outBuffer.length`, which bounds
the iteration count. -/
def cleanDrain (t : Tube) (ret : List Nat) : Nat → List Nat × Tube
  | 0 => (ret, t)
  | fuel + 1 =>
    if t.outBuffer.isEmpty then (ret, t)
    else
      cleanDrain { t with outBuffer := t.outBuffer.drop 4096 }
        (ret ++ t.outBuffer.take 4096) fuel

/-- Iterations of the `clean` loop at which the buffer is empty: the loop
re-checks `connected("in")`; the inner `recv` waits and returns whatever a
single wake yields.  An empty yield (timeout with no data, or the close
notification) ends the loop; the exhausted event list stands for the final
`recv` timing out with nothing. -/
def cleanLoop : Tube → List Nat → List RecvEvent → List Nat × Tube
  | t, ret, events =>
    if ¬ connectedIn t then (ret, t)
    else
      match events with
      | [] => (ret, t)
      | ev :: rest =>
          let t1 := recvWake t ev
          if t1.outBuffer.isEmpty then (ret, t1)
          else
            match cleanDrain t1 ret t1.outBuffer.length with
            | (ret2, t2) => cleanLoop t2 ret2 rest

/-- `Tube.clean(timeout)`: with `timeout <= 0`, atomically drain and
return the whole buffer; otherwise loop `recv(4096, timeout)` while
connected until a `recv` yields nothing. -/
def clean (t : Tube) (timeout : Int) (events : List RecvEvent) : List Nat × Tube :=
  if timeout ≤ 0 then (t.outBuffer, { t with outBuffer := [] })
  else if ¬ connectedIn t then ([], t)
  else
    match cleanDrain t [] t.outBuffer.length with
    | (ret1, t1) => cleanLoop t1 ret1 events

/-! ### Trace model for the pushback / no-data-loss property -/

/-- Serialized operations on one tube: the source's data callback firing,
a `recv` call (arrivals during its wait are serialized as preceding
`arrive` operations), or an `unrecv` call. -/
inductive TraceOp where
  | arrive (c : List Nat)
  | recvOp (n : Nat)
  | unrecvOp (d : List Nat)
deriving Repr

/-- Running bookkeeping for a trace: the tube, everything the source has
emitted, and the concatenation of the outputs consumed by `recv` calls
(pushback removes the pushed-back bytes from the consumed tail). -/
structure TraceState where
  tube : Tube
  emitted : List Nat
  consumed : List Nat
deriving Repr

/-- One trace step.  A failed `recv` (input not connected) consumes
nothing and leaves the tube unchanged. -/
def traceStep (s : TraceState) : TraceOp → TraceState
  | .arrive c => { s with tube := dataHandler s.tube c, emitted := s.emitted ++ c }
  | .recvOp n =>
      match recv s.tube n .timeoutEv with
      | (.ok dat, t') => { s with tube := t', consumed := s.consumed ++ dat }
      | (.error _, _) => s
  | .unrecvOp d =>
      { s with tube := unrecv s.tube d,
               consumed := s.consumed.take (s.consumed.length - d.length) }

/-- Fold a trace. -/
def traceRun (s : TraceState) : List TraceOp → TraceState
  | [] => s
  | op :: rest => traceRun (traceStep s op) rest

/-- Validity of one trace operation: an `unrecv` must push back a suffix
of what has been consumed so far (which is how the `Tube` code itself uses
it: it pushes back previously received, unconsumed lookahead). -/
def validOp (s : TraceState) : TraceOp → Bool
  | .unrecvOp d => d.isSuffixOf s.consumed
  | _ => true

/-- A trace is valid when every operation is valid in the state it runs in. -/
def validFrom : TraceState → List TraceOp → Bool
  | _, [] => true
  | s, op :: rest => validOp s op && validFrom (traceStep s op) rest

/-- Endpoint frame of a receive operation: the endpoint is unchanged
except that the source's own close callback may have retired the readable
side. -/
def endpointFrame (a b : Tube) : Prop :=
  b.io = a.io ∨ b.io = { a.io with output := false }

/-! ### Helper lemmas -/

/-- A wait that ends by timeout leaves the tube unchanged. -/
theorem recvAfterWake_timeout (t : Tube) : recvAfterWake t .timeoutEv = t := by
  simp [recvAfterWake, recvWake]

/-- `recvall`'s waiting phase over a chunk sequence followed by the close
signal: everything emitted is returned and the buffer is cleared. -/
theorem recvallWait_chunks (t : Tube) (chunks : List (List Nat)) :
    recvallWait t (chunks.map RAEvent.chunk ++ [RAEvent.closeEv]) =
      (.ok (t.outBuffer ++ chunks.flatten), ⟨{ t.io with output := false }, []⟩) := by
  induction chunks generalizing t with
  | nil => simp [recvallWait, closeHandler]
  | cons c cs ih => simp [recvallWait, dataHandler, ih, List.append_assoc]

/-- The invariant of the trace model: consumed output followed by the
buffer contents is exactly what the source emitted. -/
def traceInv (s : TraceState) : Prop :=
  s.consumed ++ s.tube.outBuffer = s.emitted

/-- One valid trace step preserves the invariant. -/
theorem traceStep_inv (s : TraceState) (op : TraceOp)
    (hv : validOp s op = true)
    (hinv : traceInv s) : traceInv (traceStep s op) := by
  cases op with
  | arrive c =>
      simp only [traceInv, traceStep, dataHandler] at *
      rw [← List.append_assoc, hinv]
  | recvOp n =>
      by_cases hc : connectedIn s.tube
      · simp only [traceInv, traceStep, recv, hc, not_true, if_neg, ite_false,
          recvAfterWake_timeout] at *
        rw [List.append_assoc, List.take_append_drop]
        exact hinv
      · simp only [traceInv, traceStep, recv, hc] at *
        simp [hinv]
  | unrecvOp d =>
      rw [validOp, List.isSuffixOf_iff_suffix] at hv
      obtain ⟨c', hc'⟩ := hv
      simp only [traceInv, traceStep, unrecv] at *
      rw [← hc', ← hinv, ← hc']
      have hlen : (c' ++ d).length - d.length = c'.length := by simp
      rw [hlen, List.take_left, List.append_assoc]

/-- A valid trace preserves the invariant. -/
theorem traceRun_inv (ops : List TraceOp) :
    ∀ s, validFrom s ops = true → traceInv s → traceInv (traceRun s ops) := by
  induction ops with
  | nil => intro s _ h; simpa [traceRun] using h
  | cons op rest ih =>
      intro s hv hinv
      rw [validFrom, Bool.and_eq_true] at hv
      exact ih _ hv.2 (traceStep_inv s op hv.1 hinv)

/-- `insertByIdx` adds one element. -/
theorem length_insertByIdx (x : List Nat × Int) (l : List (List Nat × Int)) :
    (insertByIdx x l).length = l.length + 1 := by
  induction l with
  | nil => rfl
  | cons y ys ih =>
      rw [insertByIdx]
      by_cases hle : x.2 ≤ y.2
      · simp [hle]
      · simp [hle, ih]

/-- `sortByIdx` preserves length. -/
theorem length_sortByIdx (l : List (List Nat × Int)) :
    (sortByIdx l).length = l.length := by
  induction l with
  | nil => rfl
  | cons x xs ih => rw [sortByIdx, length_insertByIdx, ih, List.length_cons]

/-- the head of the stable index sort is an element of minimal index that
comes first, in the original order, among elements of that index. -/
theorem sortByIdx_head_spec :
    ∀ (l : List (List Nat × Int)) (x : List Nat × Int),
    (sortByIdx l).head? = some x →
    x ∈ l ∧ (∀ y ∈ l, x.2 ≤ y.2) ∧ l.find? (fun p => p.2 == x.2) = some x := by
  intro l
  induction l with
  | nil => intro x h; simp [sortByIdx] at h
  | cons a as ih =>
      intro x h
      rw [sortByIdx] at h
      cases hS : sortByIdx as with
      | nil =>
          have has : as = [] := by
            have := length_sortByIdx as
            rw [hS] at this
            exact List.length_eq_zero.mp this.symm
          subst has
          rw [hS] at h
          simp [insertByIdx] at h
          subst h
          refine ⟨List.mem_singleton_self a, ?_, ?_⟩
          · intro y hy
            rw [List.mem_singleton] at hy
            subst hy
            exact le_refl _
          · simp [List.find?]
      | cons h0 tS =>
          have IH := ih h0 (by rw [hS]; rfl)
          rw [hS, insertByIdx] at h
          by_cases hle : a.2 ≤ h0.2
          · rw [if_pos hle] at h
            simp at h
            subst h
            refine ⟨List.mem_cons_self a as, ?_, ?_⟩
            · intro y hy
              rcases List.mem_cons.mp hy with hy | hy
              · subst hy; exact le_refl _
              · exact le_trans hle (IH.2.1 y hy)
            · exact List.find?_cons_of_pos _ (by simp)
          · rw [if_neg hle] at h
            simp at h
            subst h
            have hlt : h0.2 < a.2 := lt_of_not_le hle
            refine ⟨List.mem_cons_of_mem a IH.1, ?_, ?_⟩
            · intro y hy
              rcases List.mem_cons.mp hy with hy | hy
              · subst hy; exact le_of_lt hlt
              · exact IH.2.1 y hy
            · rw [List.find?_cons_of_neg _ (by simp; exact ne_of_gt hlt)]
              exact IH.2.2

/-- A non-`-1` result of `bufIndexOf` is a non-negative index at which the
needle occurs. -/
theorem bufIndexOf_spec (hay needle : List Nat) (i : Int)
    (h : bufIndexOf hay needle = i) (hne : i ≠ -1) :
    0 ≤ i ∧ needle.isPrefixOf (hay.drop i.toNat) = true := by
  rw [bufIndexOf] at h
  cases hf : (List.range (hay.length + 1)).find? (fun k => needle.isPrefixOf (hay.drop k)) with
  | none => rw [hf] at h; exact absurd h.symm hne
  | some k =>
      rw [hf] at h
      subst h
      refine ⟨Int.natCast_nonneg k, ?_⟩
      rw [Int.toNat_natCast]
      have h2 := List.find?_some hf
      simpa using h2

/-- Unpacking `ruMatch`: the selected pair is a candidate of minimal
offset, first in delimiter order among minimal-offset candidates, and a
genuine occurrence of a given delimiter. -/
theorem ruMatch_spec (delims : List (List Nat)) (ret d : List Nat) (i : Int)
    (h : ruMatch delims ret = some (d, i)) :
    (d, i) ∈ ruCandidates delims ret ∧
    (∀ p ∈ ruCandidates delims ret, i ≤ p.2) ∧
    (ruCandidates delims ret).find? (fun p => p.2 == i) = some (d, i) ∧
    d ∈ delims ∧ 0 ≤ i ∧ d.isPrefixOf (ret.drop i.toNat) = true := by
  have hh := sortByIdx_head_spec (ruCandidates delims ret) (d, i) h
  refine ⟨hh.1, hh.2.1, hh.2.2, ?_⟩
  have hmem := hh.1
  rw [ruCandidates, List.mem_filter] at hmem
  obtain ⟨hmap, hbne⟩ := hmem
  rw [List.mem_map] at hmap
  obtain ⟨v, hv, hveq⟩ := hmap
  have hvd : v = d := congrArg Prod.fst hveq
  have hvi : bufIndexOf ret v = i := congrArg Prod.snd hveq
  subst hvd
  have hne : i ≠ -1 := by
    intro hcon
    rw [hcon] at hbne
    simp at hbne
  obtain ⟨h0, hocc⟩ := bufIndexOf_spec ret v i hvi hne
  exact ⟨hv, h0, hocc⟩

/-- A match produced inside the drain phase splits the accumulated data at
the selected offset. -/
theorem ruDrain_inl (delims : List (List Nat)) :
    ∀ (fuel : Nat) (t : Tube) (ret : List Nat) (o : RUOutcome) (tf : Tube),
    ruDrain delims t ret fuel = .inl (o, tf) →
    ∃ acc d i, ruMatch delims acc = some (d, i) ∧
      o = .ok (acc.take (i.toNat + d.length)) ∧
      tf.outBuffer = acc.drop (i.toNat + d.length) := by
  intro fuel
  induction fuel with
  | zero => intro t ret o tf h; simp [ruDrain] at h
  | succ fuel ih =>
      intro t ret o tf h
      rw [ruDrain] at h
      by_cases hb : t.outBuffer.isEmpty
      · rw [if_pos hb] at h
        exact absurd h (by simp)
      · rw [if_neg hb] at h
        simp only at h
        cases hm : ruMatch delims (ret ++ t.outBuffer.take 4096) with
        | none =>
            rw [hm] at h
            exact ih _ _ _ _ h
        | some di =>
            obtain ⟨d, i⟩ := di
            rw [hm] at h
            simp at h
            exact ⟨ret ++ t.outBuffer.take 4096, d, i, hm, h.1.symm, by rw [← h.2]⟩

/-- A successful `ruLoop` run (under the `"throw"` policy, which makes
the incomplete path reject) ends in a match step that splits the
accumulated data at the selected offset. -/
theorem ruLoop_ok (delims : List (List Nat)) :
    ∀ (events : List RUEvent) (t : Tube) (ret front : List Nat) (t' : Tube),
    ruLoop delims .hThrow t ret events = (.ok front, t') →
    ∃ acc d i, ruMatch delims acc = some (d, i) ∧
      front = acc.take (i.toNat + d.length) ∧
      t'.outBuffer = acc.drop (i.toNat + d.length) := by
  intro events
  induction events with
  | nil =>
      intro t ret front t' h
      rw [ruLoop] at h
      by_cases hc : ¬ connectedIn t
      · rw [if_pos hc] at h
        simp [ruIncomplete] at h
      · rw [if_neg hc] at h
        simp at h
  | cons ev rest ih =>
      intro t ret front t' h
      cases ev with
      | timeoutEv =>
          rw [ruLoop] at h
          by_cases hc : ¬ connectedIn t
          · rw [if_pos hc] at h
            simp [ruIncomplete] at h
          · rw [if_neg hc] at h
            simp [ruIncomplete] at h
      | closeEv =>
          rw [ruLoop] at h
          by_cases hc : ¬ connectedIn t
          · rw [if_pos hc] at h
            simp [ruIncomplete] at h
          · rw [if_neg hc] at h
            simp only at h
            cases hm : ruMatch delims ret with
            | none =>
                rw [hm] at h
                exact ih _ _ _ _ h
            | some di =>
                obtain ⟨d, i⟩ := di
                rw [hm] at h
                have h' : (RUOutcome.ok (ret.take (i.toNat + d.length)),
                    ({ closeHandler t with
                        outBuffer := ret.drop (i.toNat + d.length) } : Tube))
                    = (.ok front, t') := h
                obtain ⟨ho, htf⟩ := Prod.mk.inj h'
                exact ⟨ret, d, i, hm, (RUOutcome.ok.inj ho).symm, by rw [← htf]⟩
      | chunk c =>
          rw [ruLoop] at h
          by_cases hc : ¬ connectedIn t
          · rw [if_pos hc] at h
            simp [ruIncomplete] at h
          · rw [if_neg hc] at h
            simp only at h
            cases hd : ruDrain delims (dataHandler t c) ret
                (dataHandler t c).outBuffer.length with
            | inl out =>
                rw [hd] at h
                obtain ⟨o, tf⟩ := out
                obtain ⟨acc, d, i, hm, ho, hb⟩ := ruDrain_inl delims _ _ _ _ _ hd
                have h' : (o, tf) = (RUOutcome.ok front, t') := h
                obtain ⟨ho2, htf⟩ := Prod.mk.inj h'
                rw [ho2] at ho
                refine ⟨acc, d, i, hm, RUOutcome.ok.inj ho, ?_⟩
                rw [← htf]
                exact hb
            | inr p =>
                rw [hd] at h
                obtain ⟨t2, ret2⟩ := p
                exact ih _ _ _ _ h

/-- The matching path of the loop is independent of the `handleIncomplete`
policy: a run that succeeds under `"throw"` succeeds identically under
every policy. -/
theorem ruLoop_hI (delims : List (List Nat)) (hI : HandleIncomplete) :
    ∀ (events : List RUEvent) (t : Tube) (ret front : List Nat) (t' : Tube),
    ruLoop delims .hThrow t ret events = (.ok front, t') →
    ruLoop delims hI t ret events = (.ok front, t') := by
  intro events
  induction events with
  | nil =>
      intro t ret front t' h
      rw [ruLoop] at h ⊢
      by_cases hc : ¬ connectedIn t
      · rw [if_pos hc] at h
        simp [ruIncomplete] at h
      · rw [if_neg hc] at h ⊢
        simp at h
  | cons ev rest ih =>
      intro t ret front t' h
      cases ev with
      | timeoutEv =>
          rw [ruLoop] at h
          by_cases hc : ¬ connectedIn t
          · rw [if_pos hc] at h
            simp [ruIncomplete] at h
          · rw [if_neg hc] at h
            simp [ruIncomplete] at h
      | closeEv =>
          rw [ruLoop] at h ⊢
          by_cases hc : ¬ connectedIn t
          · rw [if_pos hc] at h
            simp [ruIncomplete] at h
          · rw [if_neg hc] at h ⊢
            simp only at h ⊢
            cases hm : ruMatch delims ret with
            | none =>
                rw [hm] at h
                exact ih _ _ _ _ h
            | some di =>
                rw [hm] at h
                exact h
      | chunk c =>
          rw [ruLoop] at h ⊢
          by_cases hc : ¬ connectedIn t
          · rw [if_pos hc] at h
            simp [ruIncomplete] at h
          · rw [if_neg hc] at h ⊢
            simp only at h ⊢
            cases hd : ruDrain delims (dataHandler t c) ret
                (dataHandler t c).outBuffer.length with
            | inl out =>
                rw [hd] at h
                exact h
            | inr p =>
                rw [hd] at h
                obtain ⟨t2, ret2⟩ := p
                exact ih _ _ _ _ h

/-! ### Claim theorems -/

/-- C1: whenever `recvuntil` finds a delimiter (a successful run), the
result is independent of the `handleIncomplete` policy, and there is an
accumulated buffer content `acc` such that the selected match `(d, i)` is
a genuine occurrence of one of the given delimiters, has the smallest
offset among all delimiters' first occurrences in `acc`, is the first in
delimiter order among matches at that offset, and the data is split
exactly at `offset + delimiter.length`: the front part (including the
delimiter) is returned and the back part is retained in the Tube's buffer
for the next receive. -/
theorem recvuntil_earliest_split (t : Tube) (delims : List (List Nat))
    (events : List RUEvent) (front : List Nat) (t' : Tube)
    (h : recvuntil t delims .hThrow events = (.ok front, t')) :
    (∀ hI, recvuntil t delims hI events = (.ok front, t')) ∧
    ∃ acc d i, d ∈ delims ∧ 0 ≤ i ∧ d.isPrefixOf (acc.drop i.toNat) = true ∧
      (∀ p ∈ ruCandidates delims acc, i ≤ p.2) ∧
      (ruCandidates delims acc).find? (fun p => p.2 == i) = some (d, i) ∧
      front = acc.take (i.toNat + d.length) ∧
      t'.outBuffer = acc.drop (i.toNat + d.length) := by
  have hsplit : ∃ acc d i, ruMatch delims acc = some (d, i) ∧
      front = acc.take (i.toNat + d.length) ∧
      t'.outBuffer = acc.drop (i.toNat + d.length) := by
    rw [recvuntil] at h
    by_cases hc : ¬ connectedIn t
    · rw [if_pos hc] at h
      simp at h
    · rw [if_neg hc] at h
      cases hd : ruDrain delims t [] t.outBuffer.length with
      | inl out =>
          rw [hd] at h
          obtain ⟨o, tf⟩ := out
          obtain ⟨acc, d, i, hm, ho, hb⟩ := ruDrain_inl delims _ _ _ _ _ hd
          have h' : (o, tf) = (RUOutcome.ok front, t') := h
          obtain ⟨ho2, htf⟩ := Prod.mk.inj h'
          rw [ho2] at ho
          refine ⟨acc, d, i, hm, RUOutcome.ok.inj ho, ?_⟩
          rw [← htf]
          exact hb
      | inr p =>
          rw [hd] at h
          obtain ⟨t1, ret1⟩ := p
          exact ruLoop_ok delims _ _ _ _ _ h
  constructor
  · intro hI
    rw [recvuntil] at h ⊢
    by_cases hc : ¬ connectedIn t
    · rw [if_pos hc] at h
      simp at h
    · rw [if_neg hc] at h ⊢
      cases hd : ruDrain delims t [] t.outBuffer.length with
      | inl out =>
          rw [hd] at h
          exact h
      | inr p =>
          rw [hd] at h
          obtain ⟨t1, ret1⟩ := p
          exact ruLoop_hI delims hI _ _ _ _ _ h
  · obtain ⟨acc, d, i, hm, hf, hb⟩ := hsplit
    obtain ⟨hmem, hmin, hfirst, hd, h0, hocc⟩ := ruMatch_spec delims acc d i hm
    exact ⟨acc, d, i, hd, h0, hocc, hmin, hfirst, hf, hb⟩

/-- Witness for C1 at the spec's delimiter-determinism example: buffered
`"AAAdelim1BBBdelim2"` with delimiters `["delim2", "delim1"]` matches
`"delim1"` at the lower offset; `"AAAdelim1"` is returned and
`"BBBdelim2"` is retained. -/
theorem recvuntil_earliest_split_witness :
    (∀ hI, recvuntil
        ⟨⟨true, false, none⟩,
         [65, 65, 65, 100, 101, 108, 105, 109, 49, 66, 66, 66, 100, 101, 108, 105, 109, 50]⟩
        [[100, 101, 108, 105, 109, 50], [100, 101, 108, 105, 109, 49]] hI []
      = (.ok [65, 65, 65, 100, 101, 108, 105, 109, 49],
         ⟨⟨true, false, none⟩, [66, 66, 66, 100, 101, 108, 105, 109, 50]⟩)) ∧
    ∃ acc d i,
      d ∈ [[100, 101, 108, 105, 109, 50], [100, 101, 108, 105, 109, 49]] ∧ 0 ≤ i ∧
      d.isPrefixOf (acc.drop i.toNat) = true ∧
      (∀ p ∈ ruCandidates [[100, 101, 108, 105, 109, 50], [100, 101, 108, 105, 109, 49]] acc,
          i ≤ p.2) ∧
      (ruCandidates [[100, 101, 108, 105, 109, 50], [100, 101, 108, 105, 109, 49]] acc).find?
          (fun p => p.2 == i) = some (d, i) ∧
      [65, 65, 65, 100, 101, 108, 105, 109, 49] = acc.take (i.toNat + d.length) ∧
      (⟨⟨true, false, none⟩,
        [66, 66, 66, 100, 101, 108, 105, 109, 50]⟩ : Tube).outBuffer
        = acc.drop (i.toNat + d.length) :=
  recvuntil_earliest_split _ _ _ _ _ (by decide)

/-- C2: `unrecv` prepends its bytes to the head of the buffer so that a
subsequent receive sees them first, and along every valid sequence of
`recv`/`unrecv` calls (each pushback restoring a suffix of what was
consumed, as the code's own incomplete-match paths do), the consumed
output followed by the remaining buffer contents is exactly the byte
sequence the source emitted, in order. -/
theorem unrecv_pushback_no_loss :
    (∀ (t : Tube) (d : List Nat), (unrecv t d).outBuffer = d ++ t.outBuffer) ∧
    (∀ (endp : IOAble) (ops : List TraceOp),
      validFrom ⟨⟨endp, []⟩, [], []⟩ ops = true →
      (traceRun ⟨⟨endp, []⟩, [], []⟩ ops).consumed
          ++ (traceRun ⟨⟨endp, []⟩, [], []⟩ ops).tube.outBuffer
        = (traceRun ⟨⟨endp, []⟩, [], []⟩ ops).emitted) := by
  refine ⟨fun t d => rfl, fun endp ops hv => ?_⟩
  exact traceRun_inv ops _ hv rfl

/-- Witness for C2: a concrete valid trace with an interior pushback. -/
theorem unrecv_pushback_no_loss_witness :
    (traceRun ⟨⟨⟨true, false, none⟩, []⟩, [], []⟩
        [.arrive [1, 2, 3], .recvOp 2, .unrecvOp [2], .recvOp 5]).consumed
      ++ (traceRun ⟨⟨⟨true, false, none⟩, []⟩, [], []⟩
        [.arrive [1, 2, 3], .recvOp 2, .unrecvOp [2], .recvOp 5]).tube.outBuffer
      = (traceRun ⟨⟨⟨true, false, none⟩, []⟩, [], []⟩
        [.arrive [1, 2, 3], .recvOp 2, .unrecvOp [2], .recvOp 5]).emitted :=
  unrecv_pushback_no_loss.2 ⟨true, false, none⟩ _ (by decide)

/-- C3: on a Tube whose input is connected, `recv` never fails: after the
wait settles (data arrival, buffer already non-empty, or timeout with no
new data) it takes up to `bytes` from the buffer head, leaves the
remainder in the buffer, and returns what was taken — an empty result when
the timeout elapsed with nothing received; on a Tube whose input is not
connected it fails immediately with the state error. -/
theorem recv_timeout_semantics (t : Tube) (bytes : Nat) (ev : RecvEvent)
    (h : connectedIn t = true) :
    (∃ dat t', recv t bytes ev = (.ok dat, t') ∧
        dat.length ≤ bytes ∧
        dat ++ t'.outBuffer = (recvAfterWake t ev).outBuffer ∧
        t'.io = (recvAfterWake t ev).io) ∧
    (t.outBuffer = [] → ev = .timeoutEv → recv t bytes ev = (.ok [], t)) ∧
    (∀ u : Tube, connectedIn u = false →
        recv u bytes ev = (.error "Cannot read from io object.", u)) := by
  refine ⟨⟨(recvAfterWake t ev).outBuffer.take bytes,
           { recvAfterWake t ev with outBuffer := (recvAfterWake t ev).outBuffer.drop bytes },
           ?_, ?_, List.take_append_drop bytes _, rfl⟩, ?_, ?_⟩
  · simp [recv, h]
  · simp [List.length_take]
  · intro hb hev
    subst hev
    have ht : ({ t with outBuffer := ([] : List Nat) } : Tube) = t := by rw [← hb]
    simp [recv, h, recvAfterWake_timeout, hb, ht]
  · intro u hu
    simp [recv, hu]

/-- Witness for C3: timeout on an empty, connected tube returns an empty
result rather than an error. -/
theorem recv_timeout_semantics_witness :
    recv ⟨⟨true, false, none⟩, []⟩ 10 .timeoutEv = (.ok [], ⟨⟨true, false, none⟩, []⟩) :=
  (recv_timeout_semantics ⟨⟨true, false, none⟩, []⟩ 10 .timeoutEv (by decide)).2.1 rfl rfl

/-- C4: concrete run of `recvuntil` timing out before a match after
accumulating `[104, 105]`.  `"return"` resolves with the accumulated data
and `"throw"` pushes it back and rejects with the timeout error, as
claimed; but `"buffer"` pushes the data back and then never settles the
promise (the code's `"buffer"` branch contains no `res(...)` call), so it
does not resolve with an empty result. -/
theorem recvuntil_timeout_policies :
    recvuntil ⟨⟨true, false, none⟩, []⟩ [[10]] .hBuffer [.chunk [104, 105], .timeoutEv]
      = (.hang, ⟨⟨true, false, none⟩, [104, 105]⟩) ∧
    recvuntil ⟨⟨true, false, none⟩, []⟩ [[10]] .hReturn [.chunk [104, 105], .timeoutEv]
      = (.ok [104, 105], ⟨⟨true, false, none⟩, []⟩) ∧
    recvuntil ⟨⟨true, false, none⟩, []⟩ [[10]] .hThrow [.chunk [104, 105], .timeoutEv]
      = (.err "Timeout before reaching deliminator.", ⟨⟨true, false, none⟩, [104, 105]⟩) := by
  decide

/-- C5: concrete run of the `waitForEvent` race.  When the event fires
before the armed 1000 ms deadline with `reject = true`, the shared `once`
handler applies the reject policy anyway and the future rejects with the
timeout error instead of resolving with the event's arguments (it resolves
with them only under `reject = false`); moreover, when the numeric
deadline wins, the event listener is left attached rather than detached. -/
theorem waitForEvent_reject_fires_on_event :
    waitForEvent (.num 1000) true (.eventFirst [42]) =
      { outcome := .rejected "Hit timeout before event.", timerPending := false,
        listenerAttached := false } ∧
    waitForEvent (.num 1000) false (.eventFirst [42]) =
      { outcome := .resolved (some [42]), timerPending := false, listenerAttached := false } ∧
    waitForEvent (.num 1000) false .timerFirst =
      { outcome := .resolved none, timerPending := false, listenerAttached := true } := by
  decide

/-- C6 counterexample: on a Tube whose endpoint's destroy capability
fails, `close()` propagates the failure but leaves the held endpoint
unchanged — it is not replaced with the destroyed sentinel, so the state
transition is not unconditional. -/
theorem close_unconditional_cex :
    close ⟨⟨true, true, some false⟩, []⟩
      = (.error "destroy failed", ⟨⟨true, true, some false⟩, []⟩) ∧
    (⟨true, true, some false⟩ : IOAble) ≠ IODestroyed := by
  decide

/-- C6 (amended): `close()` invokes the destroy capability when present
and propagates its failure to the caller, but the held endpoint is
replaced with the destroyed sentinel only when destroy is absent or
succeeds; when destroy fails the endpoint (and the whole Tube) is left
unchanged. -/
theorem close_destroy_semantics (t : Tube) :
    (t.io.destroy = some false → close t = (.error "destroy failed", t)) ∧
    (t.io.destroy ≠ some false → close t = (.ok (), { t with io := IODestroyed })) := by
  constructor
  · intro h
    simp [close, h]
  · intro h
    cases hd : t.io.destroy with
    | none => simp [close, hd]
    | some b =>
        cases b with
        | false => exact absurd hd h
        | true => simp [close, hd]

/-- Witness for C6 at a concrete failing destroy capability. -/
theorem close_destroy_semantics_witness :
    close ⟨⟨true, true, some false⟩, [1]⟩
      = (.error "destroy failed", ⟨⟨true, true, some false⟩, [1]⟩) :=
  (close_destroy_semantics ⟨⟨true, true, some false⟩, [1]⟩).1 rfl

/-- C7 counterexample: a Tube with one buffered byte is closed
successfully, yet `connected("any")` is still true afterwards and a
further `recv` succeeds, returning the buffered byte — because
`connected("in")` also holds when the buffer is non-empty and `close()`
does not clear the buffer. -/
theorem close_connected_cex :
    close ⟨⟨true, false, none⟩, [7]⟩ = (.ok (), ⟨IODestroyed, [7]⟩) ∧
    connected ⟨IODestroyed, [7]⟩ "any" = .ok true ∧
    recv ⟨IODestroyed, [7]⟩ 5 .timeoutEv = (.ok [7], ⟨IODestroyed, []⟩) := by
  decide

/-- C7 (amended): after `close()` completes successfully and the receive
buffer is empty, `connected("any")` is false and a further `recv` call
fails with the state error.  (With buffered data remaining, input still
counts as connected; and when destroy fails, `close()` rejects and the
endpoint is left unchanged.) -/
theorem close_connected_state (t t' : Tube) (hc : close t = (.ok (), t'))
    (hb : t'.outBuffer = []) :
    connected t' "any" = .ok false ∧
    (∀ bytes ev, recv t' bytes ev = (.error "Cannot read from io object.", t')) := by
  have hio : t'.io = IODestroyed := by
    cases hd : t.io.destroy with
    | none =>
        simp [close, hd] at hc
        rw [← hc]
    | some b =>
        cases b with
        | false => simp [close, hd] at hc
        | true =>
            simp [close, hd] at hc
            rw [← hc]
  have hcon : connectedIn t' = false := by
    simp [connectedIn, isReadable, hio, hb, IODestroyed]
  have hany : connected t' "any" = .ok (connectedIn t' || connectedOut t') := rfl
  refine ⟨?_, ?_⟩
  · rw [hany, hcon]
    simp [connectedOut, isWritable, hio, IODestroyed]
  · intro bytes ev
    simp [recv, hcon]

/-- Witness for C7 on a concretely closed tube. -/
theorem close_connected_state_witness :
    connected ⟨IODestroyed, []⟩ "any" = .ok false ∧
    (∀ bytes ev, recv ⟨IODestroyed, []⟩ bytes ev
        = (.error "Cannot read from io object.", ⟨IODestroyed, []⟩)) :=
  close_connected_state ⟨⟨false, true, some true⟩, []⟩ ⟨IODestroyed, []⟩ (by decide) rfl

/-- C8: concrete runs of `recvline`.  With the two-byte line ending
`"\r\n"` and buffered `"ab\r\n"`, the code detects the full line-ending
suffix but strips only one byte (`data.slice(0, data.length - 1)`),
returning `"ab\r"` instead of `"ab"`; and on timeout with
`handleIncomplete = "throw"` it raises the distinct no-newline error while
the accumulated bytes are pushed back. -/
theorem recvline_strip_one_byte :
    recvline ⟨⟨true, false, none⟩, [97, 98, 13, 10]⟩ false .hThrow [13, 10] []
      = (.ok [97, 98, 13], ⟨⟨true, false, none⟩, []⟩) ∧
    recvline ⟨⟨true, false, none⟩, [104, 105]⟩ false .hThrow [10] [.timeoutEv]
      = (.err "Could not find a newline.", ⟨⟨true, false, none⟩, [104, 105]⟩) := by
  decide

/-- C9 counterexample: after the source emits `"a"`, `"b"` and closes, the
first `recvall()` resolves to `"ab"` and exhausts the Tube; but a second
`recvall()` on the now-exhausted, closed Tube fails immediately with the
state error — it does not resolve to empty data. -/
theorem recvall_second_call_cex :
    recvall ⟨⟨true, false, none⟩, []⟩ [.chunk [97], .chunk [98], .closeEv]
      = (.ok [97, 98], ⟨⟨false, false, none⟩, []⟩) ∧
    recvall ⟨⟨false, false, none⟩, []⟩ []
      = (.err "Cannot read from io object.", ⟨⟨false, false, none⟩, []⟩) ∧
    (recvall ⟨⟨false, false, none⟩, []⟩ []).1 ≠ .ok [] := by
  decide

/-- C9 (amended): `recvall` waits with no timeout for the source's close
signal, then returns everything the source emitted and clears the buffer;
a second `recvall` on the resulting exhausted, closed Tube fails
immediately with the state error (rather than hanging or returning data). -/
theorem recvall_terminal (endp : IOAble) (h : endp.output = true)
    (chunks : List (List Nat)) (evs2 : List RAEvent) :
    recvall ⟨endp, []⟩ (chunks.map RAEvent.chunk ++ [RAEvent.closeEv]) =
      (.ok chunks.flatten, ⟨{ endp with output := false }, []⟩) ∧
    recvall ⟨{ endp with output := false }, []⟩ evs2 =
      (.err "Cannot read from io object.", ⟨{ endp with output := false }, []⟩) := by
  constructor
  · have hc : connectedIn ⟨endp, []⟩ = true := by
      simp [connectedIn, isReadable, h]
    simp [recvall, hc, recvallWait_chunks]
  · simp [recvall, connectedIn, isReadable]

/-- Witness for C9 at the spec's concrete scenario. -/
theorem recvall_terminal_witness :
    recvall ⟨⟨true, false, none⟩, []⟩ [.chunk [97], .chunk [98], .closeEv]
      = (.ok [97, 98], ⟨⟨false, false, none⟩, []⟩) ∧
    recvall ⟨⟨false, false, none⟩, []⟩ []
      = (.err "Cannot read from io object.", ⟨⟨false, false, none⟩, []⟩) := by
  have h := recvall_terminal ⟨true, false, none⟩ rfl [[97], [98]] []
  simpa using h

/-! ### Frame lemmas for C10 -/

/-- `endpointFrame` is reflexive. -/
theorem endpointFrame_refl (t : Tube) : endpointFrame t t := Or.inl rfl

/-- `endpointFrame` composes. -/
theorem endpointFrame_trans {a b c : Tube}
    (h1 : endpointFrame a b) (h2 : endpointFrame b c) : endpointFrame a c := by
  rcases h1 with h1 | h1 <;> rcases h2 with h2 | h2
  · exact Or.inl (h2.trans h1)
  · rw [h1] at h2; exact Or.inr h2
  · exact Or.inr (h2.trans h1)
  · right; rw [h2, h1]

/-- Under the frame, the writable capability and the destroy capability
are untouched. -/
theorem endpointFrame_input {a b : Tube} (h : endpointFrame a b) :
    b.io.input = a.io.input ∧ b.io.destroy = a.io.destroy := by
  rcases h with h | h <;> rw [h] <;> exact ⟨rfl, rfl⟩

/-- Under the frame, `connected("out")` is unchanged. -/
theorem endpointFrame_connected_out {a b : Tube} (h : endpointFrame a b) :
    connected b "out" = connected a "out" := by
  have h1 : connected b "out" = .ok (connectedOut b) := rfl
  have h2 : connected a "out" = .ok (connectedOut a) := rfl
  rw [h1, h2]
  rw [connectedOut, connectedOut, isWritable, isWritable, (endpointFrame_input h).1]

/-- A wake notification respects the frame (chunks keep the endpoint, the
close callback retires the readable side). -/
theorem recvWake_frame (t : Tube) (ev : RecvEvent) : endpointFrame t (recvWake t ev) := by
  cases ev with
  | chunk c => exact Or.inl rfl
  | closeEv => exact Or.inr rfl
  | timeoutEv => exact Or.inl rfl

/-- The state at which `recv` resumes respects the frame. -/
theorem recvAfterWake_frame (t : Tube) (ev : RecvEvent) :
    endpointFrame t (recvAfterWake t ev) := by
  rw [recvAfterWake]
  split
  · exact recvWake_frame t ev
  · exact endpointFrame_refl t

/-- `recv` respects the frame. -/
theorem recv_frame (t : Tube) (bytes : Nat) (ev : RecvEvent) :
    endpointFrame t (recv t bytes ev).2 := by
  rw [recv]
  by_cases hc : ¬ connectedIn t
  · rw [if_pos hc]; exact endpointFrame_refl t
  · rw [if_neg hc]
    exact recvAfterWake_frame t ev

/-- The incomplete-path handler keeps the endpoint. -/
theorem ruIncomplete_frame (hI : HandleIncomplete) (t : Tube) (ret : List Nat) :
    endpointFrame t (ruIncomplete hI t ret).2 := by
  cases hI <;> exact Or.inl rfl

/-- The tube component of a drain-phase result. -/
def ruDrainTube : (RUOutcome × Tube) ⊕ (Tube × List Nat) → Tube
  | .inl (_, tf) => tf
  | .inr (tf, _) => tf

/-- The drain phase only rewrites the buffer; the endpoint is untouched. -/
theorem ruDrain_io (delims : List (List Nat)) :
    ∀ (fuel : Nat) (t : Tube) (ret : List Nat),
    (ruDrainTube (ruDrain delims t ret fuel)).io = t.io := by
  intro fuel
  induction fuel with
  | zero => intro t ret; rfl
  | succ fuel ih =>
      intro t ret
      rw [ruDrain]
      by_cases hb : t.outBuffer.isEmpty
      · rw [if_pos hb]; rfl
      · rw [if_neg hb]
        simp only
        cases hm : ruMatch delims (ret ++ t.outBuffer.take 4096) with
        | some di => obtain ⟨d, i⟩ := di; rfl
        | none => exact ih _ _

/-- The accumulation loop respects the frame. -/
theorem ruLoop_frame (delims : List (List Nat)) (hI : HandleIncomplete) :
    ∀ (events : List RUEvent) (t : Tube) (ret : List Nat),
    endpointFrame t (ruLoop delims hI t ret events).2 := by
  intro events
  induction events with
  | nil =>
      intro t ret
      rw [ruLoop]
      by_cases hc : ¬ connectedIn t
      · rw [if_pos hc]; exact ruIncomplete_frame hI t ret
      · rw [if_neg hc]; exact endpointFrame_refl t
  | cons ev rest ih =>
      intro t ret
      cases ev with
      | timeoutEv =>
          rw [ruLoop]
          by_cases hc : ¬ connectedIn t
          · rw [if_pos hc]; exact ruIncomplete_frame hI t ret
          · rw [if_neg hc]; exact ruIncomplete_frame hI t ret
      | closeEv =>
          rw [ruLoop]
          by_cases hc : ¬ connectedIn t
          · rw [if_pos hc]; exact ruIncomplete_frame hI t ret
          · rw [if_neg hc]
            simp only
            cases hm : ruMatch delims ret with
            | some di => obtain ⟨d, i⟩ := di; exact Or.inr rfl
            | none => exact endpointFrame_trans (Or.inr rfl) (ih (closeHandler t) ret)
      | chunk c =>
          rw [ruLoop]
          by_cases hc : ¬ connectedIn t
          · rw [if_pos hc]; exact ruIncomplete_frame hI t ret
          · rw [if_neg hc]
            simp only
            cases hd : ruDrain delims (dataHandler t c) ret
                (dataHandler t c).outBuffer.length with
            | inl out =>
                obtain ⟨o, tf⟩ := out
                have h2 := ruDrain_io delims (dataHandler t c).outBuffer.length
                  (dataHandler t c) ret
                rw [hd] at h2
                exact Or.inl h2
            | inr p =>
                obtain ⟨t2, ret2⟩ := p
                have h2 := ruDrain_io delims (dataHandler t c).outBuffer.length
                  (dataHandler t c) ret
                rw [hd] at h2
                exact endpointFrame_trans (Or.inl h2) (ih t2 ret2)

/-- `recvuntil` respects the frame. -/
theorem recvuntil_frame (t : Tube) (delims : List (List Nat)) (hI : HandleIncomplete)
    (events : List RUEvent) : endpointFrame t (recvuntil t delims hI events).2 := by
  rw [recvuntil]
  by_cases hc : ¬ connectedIn t
  · rw [if_pos hc]; exact endpointFrame_refl t
  · rw [if_neg hc]
    cases hd : ruDrain delims t [] t.outBuffer.length with
    | inl out =>
        obtain ⟨o, tf⟩ := out
        have h2 := ruDrain_io delims t.outBuffer.length t []
        rw [hd] at h2
        exact Or.inl h2
    | inr p =>
        obtain ⟨t1, ret1⟩ := p
        have h2 := ruDrain_io delims t.outBuffer.length t []
        rw [hd] at h2
        exact endpointFrame_trans (Or.inl h2) (ruLoop_frame delims hI events t1 ret1)

/-- `recvline` respects the frame. -/
theorem recvline_frame (t : Tube) (k : Bool) (hI : HandleIncomplete) (le : List Nat)
    (events : List RUEvent) : endpointFrame t (recvline t k hI le events).2 := by
  have hf := recvuntil_frame t [le] .hThrow events
  rw [recvline]
  split
  · rename_i heq
    rw [heq] at hf
    split
    · exact hf
    · exact hf
  · rename_i heq
    rw [heq] at hf
    cases hI <;> exact hf
  · rename_i heq
    rw [heq] at hf
    exact hf

/-- The `recvlinePred` timeout dispatch keeps the endpoint. -/
theorem rlpDispatch_frame (hI : HandleIncomplete) (t : Tube) (s : List Nat)
    (l : Option (List Nat)) : endpointFrame t (rlpDispatch hI t s l).2 := by
  cases hI with
  | hReturn => cases l <;> exact Or.inl rfl
  | hBuffer => exact Or.inl rfl
  | hThrow => exact Or.inl rfl

/-- The `recvlinePred` loop respects the frame. -/
theorem recvlinePredLoop_frame (pred : List Nat → Bool) (k : Bool)
    (hI : HandleIncomplete) (le : List Nat) :
    ∀ (steps : List RLPStep) (t : Tube) (s : List Nat) (l : Option (List Nat)),
    endpointFrame t (recvlinePredLoop pred k hI le t s l steps).2 := by
  intro steps
  induction steps with
  | nil =>
      intro t s l
      rw [recvlinePredLoop]
      by_cases hc : ¬ connectedIn t
      · rw [if_pos hc]; exact rlpDispatch_frame hI t s l
      · rw [if_neg hc]; exact endpointFrame_refl t
  | cons step rest ih =>
      intro t s l
      cases step with
      | timeoutStep =>
          rw [recvlinePredLoop]
          by_cases hc : ¬ connectedIn t
          · rw [if_pos hc]; exact rlpDispatch_frame hI t s l
          · rw [if_neg hc]; exact rlpDispatch_frame hI t s l
      | line evs =>
          rw [recvlinePredLoop]
          by_cases hc : ¬ connectedIn t
          · rw [if_pos hc]; exact rlpDispatch_frame hI t s l
          · rw [if_neg hc]
            have hf := recvline_frame t k .hBuffer le evs
            split
            · rename_i data t1 heq
              rw [heq] at hf
              split
              · exact endpointFrame_trans hf (rlpDispatch_frame hI t1 s (some data))
              · split
                · exact hf
                · exact endpointFrame_trans hf (ih t1 (s ++ data) (some data))
            · rename_i heq
              rw [heq] at hf
              exact hf

/-- `recvlinePred` respects the frame. -/
theorem recvlinePred_frame (t : Tube) (pred : List Nat → Bool) (k : Bool)
    (hI : HandleIncomplete) (le : List Nat) (steps : List RLPStep) :
    endpointFrame t (recvlinePred t pred k hI le steps).2 :=
  recvlinePredLoop_frame pred k hI le steps t [] none

/-- `canRecv` respects the frame. -/
theorem canRecv_frame (t : Tube) (ev : RecvEvent) :
    endpointFrame t (canRecv t ev).2 := by
  rw [canRecv]
  split
  · exact endpointFrame_refl t
  · exact recvWake_frame t ev

/-- `clean`'s drain phase only rewrites the buffer. -/
theorem cleanDrain_io : ∀ (fuel : Nat) (t : Tube) (ret : List Nat),
    (cleanDrain t ret fuel).2.io = t.io := by
  intro fuel
  induction fuel with
  | zero => intro t ret; rfl
  | succ fuel ih =>
      intro t ret
      rw [cleanDrain]
      by_cases hb : t.outBuffer.isEmpty
      · rw [if_pos hb]
      · rw [if_neg hb]; exact ih _ _

/-- The `clean` loop respects the frame. -/
theorem cleanLoop_frame : ∀ (events : List RecvEvent) (t : Tube) (ret : List Nat),
    endpointFrame t (cleanLoop t ret events).2 := by
  intro events
  induction events with
  | nil =>
      intro t ret
      rw [cleanLoop]
      by_cases hc : ¬ connectedIn t
      · rw [if_pos hc]; exact endpointFrame_refl t
      · rw [if_neg hc]; exact endpointFrame_refl t
  | cons ev rest ih =>
      intro t ret
      rw [cleanLoop]
      by_cases hc : ¬ connectedIn t
      · rw [if_pos hc]; exact endpointFrame_refl t
      · rw [if_neg hc]
        simp only
        by_cases hb : (recvWake t ev).outBuffer.isEmpty
        · rw [if_pos hb]; exact recvWake_frame t ev
        · rw [if_neg hb]
          cases hcd : cleanDrain (recvWake t ev) ret (recvWake t ev).outBuffer.length with
          | mk ret2 t2 =>
              have h2 := cleanDrain_io (recvWake t ev).outBuffer.length (recvWake t ev) ret
              rw [hcd] at h2
              exact endpointFrame_trans (recvWake_frame t ev)
                (endpointFrame_trans (Or.inl h2) (ih t2 ret2))

/-- `clean` respects the frame. -/
theorem clean_frame (t : Tube) (timeout : Int) (events : List RecvEvent) :
    endpointFrame t (clean t timeout events).2 := by
  rw [clean]
  by_cases h0 : timeout ≤ 0
  · rw [if_pos h0]; exact endpointFrame_refl t
  · rw [if_neg h0]
    by_cases hc : ¬ connectedIn t
    · rw [if_pos hc]; exact endpointFrame_refl t
    · rw [if_neg hc]
      cases hcd : cleanDrain t [] t.outBuffer.length with
      | mk ret1 t1 =>
          have h2 := cleanDrain_io t.outBuffer.length t []
          rw [hcd] at h2
          exact endpointFrame_trans (Or.inl h2) (cleanLoop_frame events t1 ret1)

/-- C10: every receive-side operation — `recv`, `unrecv`, `recvuntil`,
`recvline`, `recvlinePred`, `canRecv`, `clean` — leaves the Tube's held
endpoint unchanged except that the source's own close callback may retire
the readable side; in particular the writable capability, and with it the
value of `connected("out")`, is unaffected by every receive operation. -/
theorem receive_frame :
    (∀ (t : Tube) (bytes : Nat) (ev : RecvEvent),
        endpointFrame t (recv t bytes ev).2 ∧
        connected (recv t bytes ev).2 "out" = connected t "out") ∧
    (∀ (t : Tube) (d : List Nat),
        (unrecv t d).io = t.io ∧ connected (unrecv t d) "out" = connected t "out") ∧
    (∀ (t : Tube) (delims : List (List Nat)) (hI : HandleIncomplete)
        (events : List RUEvent),
        endpointFrame t (recvuntil t delims hI events).2 ∧
        connected (recvuntil t delims hI events).2 "out" = connected t "out") ∧
    (∀ (t : Tube) (k : Bool) (hI : HandleIncomplete) (le : List Nat)
        (events : List RUEvent),
        endpointFrame t (recvline t k hI le events).2 ∧
        connected (recvline t k hI le events).2 "out" = connected t "out") ∧
    (∀ (t : Tube) (pred : List Nat → Bool) (k : Bool) (hI : HandleIncomplete)
        (le : List Nat) (steps : List RLPStep),
        endpointFrame t (recvlinePred t pred k hI le steps).2 ∧
        connected (recvlinePred t pred k hI le steps).2 "out" = connected t "out") ∧
    (∀ (t : Tube) (ev : RecvEvent),
        endpointFrame t (canRecv t ev).2 ∧
        connected (canRecv t ev).2 "out" = connected t "out") ∧
    (∀ (t : Tube) (timeout : Int) (events : List RecvEvent),
        endpointFrame t (clean t timeout events).2 ∧
        connected (clean t timeout events).2 "out" = connected t "out") := by
  refine ⟨fun t bytes ev => ?_, fun t d => ?_, fun t delims hI events => ?_,
      fun t k hI le events => ?_, fun t pred k hI le steps => ?_,
      fun t ev => ?_, fun t timeout events => ?_⟩
  · exact ⟨recv_frame t bytes ev, endpointFrame_connected_out (recv_frame t bytes ev)⟩
  · exact ⟨rfl, endpointFrame_connected_out (Or.inl rfl)⟩
  · exact ⟨recvuntil_frame t delims hI events,
      endpointFrame_connected_out (recvuntil_frame t delims hI events)⟩
  · exact ⟨recvline_frame t k hI le events,
      endpointFrame_connected_out (recvline_frame t k hI le events)⟩
  · exact ⟨recvlinePred_frame t pred k hI le steps,
      endpointFrame_connected_out (recvlinePred_frame t pred k hI le steps)⟩
  · exact ⟨canRecv_frame t ev, endpointFrame_connected_out (canRecv_frame t ev)⟩
  · exact ⟨clean_frame t timeout events,
      endpointFrame_connected_out (clean_frame t timeout events)⟩

end Pwnutil
